import Mathlib

/-!
Shallow embedding of sam9boot.c (SAM9 RomBOOT host utility) and proofs about
its protocol engine: the chunked memory transfer loops, the response scanner,
the verify loop, the hex dumper, the terminal emulator cycle, and the
operation sequencing of main.  Machine integers are modelled as Nat with
explicit masking where the C code masks; byte buffers are lists of Nat whose
elements are below 256 wherever the C type is unsigned char.
-/

namespace Sam9

/-- Outcome of one protocol exchange as captured by GetResponse: the number of
bytes read within the poll window (the global ResponseCount) and the decoded
hex value returned. -/
structure Reply where
  count : Nat
  value : Nat
deriving DecidableEq, Repr

/-- Initial chunk width of both transfer loops: `ValueBytes > 3 ? 4 : 1`
(sam9boot.c lines 357 and 502). -/
def initChunk (valueBytes : Nat) : Nat := if valueBytes > 3 then 4 else 1

/-- Chunk width update after an iteration: `if (Count - Length < 4) Chunk = 1;`
(sam9boot.c lines 385-387 and 528-529).  `length` is the already-incremented
length, as in the source. -/
def nextChunk (count length chunk : Nat) : Nat := if count - length < 4 then 1 else chunk

/-- Little-endian packing of the send loop (sam9boot.c lines 504-507):
`for (i = 0; i < Chunk; i++) Value |= FileBuffer[Length++] << (i*8);`
starting from `Value = 0`. -/
def packValue (fileBuffer : List Nat) (length chunk : Nat) : Nat :=
  (List.range chunk).foldl (fun v i => v ||| ((fileBuffer.getD (length + i) 0) <<< (i * 8))) 0

/-- Little-endian unpacking of the download loop (sam9boot.c lines 375-378):
`for (n = 0; n < Chunk; n++) { MemoryBuffer[MemoryCount++] = Value & 0xff; Value >>= 8; }`
appending to the memory buffer built so far. -/
def unpackLoop (value chunk : Nat) (buf : List Nat) : List Nat :=
  match chunk with
  | 0 => buf
  | c + 1 => unpackLoop (value >>> 8) c (buf ++ [value &&& 0xff])

/-- Byte list produced by unpacking a register value: the accumulator-free
form of `unpackLoop`, used in proofs. -/
def unpackBytes (value chunk : Nat) : List Nat :=
  match chunk with
  | 0 => []
  | c + 1 => (value &&& 0xff) :: unpackBytes (value >>> 8) c

/-- Arithmetic form of the little-endian packed value of `chunk` buffer bytes
starting at offset `length`: lowest-addressed byte in the lowest-order
position. -/
def chunkBytesVal (buf : List Nat) (length chunk : Nat) : Nat :=
  match chunk with
  | 0 => 0
  | c + 1 => buf.getD length 0 + 256 * chunkBytesVal buf (length + 1) c

/-- Total number of bytes covered by a list of write commands (sum of the
chunk widths). -/
def widthSum (writes : List (Nat × Nat × Nat)) : Nat :=
  (writes.map (fun w => w.2.1)).sum

/-- The send loop of main (sam9boot.c lines 500-532), recorded as the sequence
of write commands issued, each a triple of address, chunk width and packed
register value (`O addr,val#` for width 1, `W addr,val#` for width 4).  The C
loop runs while `Length < ValueBytes`; `fuel` structurally bounds the
iteration count here, and any fuel above `valueBytes` is shown below to never
run out. -/
def sendLoop (fileBuffer : List Nat) (valueBytes : Nat) :
    Nat → Nat → Nat → Nat → List (Nat × Nat × Nat)
  | _, _, _, 0 => []
  | address, length, chunk, fuel + 1 =>
    if length < valueBytes then
      (address, chunk, packValue fileBuffer length chunk) ::
        sendLoop fileBuffer valueBytes (address + chunk) (length + chunk)
          (nextChunk valueBytes (length + chunk) chunk) fuel
    else []

/-- Upload of a whole file buffer: the send phase of main with `-s`, where
`ValueBytes` is the size of the loaded file. -/
def upload (fileBuffer : List Nat) (start : Nat) : List (Nat × Nat × Nat) :=
  sendLoop fileBuffer fileBuffer.length start 0 (initChunk fileBuffer.length)
    (fileBuffer.length + 1)

/-- A simulated target that stores the register value of every write and
returns it on a read of the same address; it is always responsive.  Reads of
registers that were never written return 0. -/
def targetOf (writes : List (Nat × Nat × Nat)) (address : Nat) (_chunk : Nat) : Reply :=
  match writes.find? (fun w => w.1 == address) with
  | some w => ⟨1, w.2.2⟩
  | none => ⟨1, 0⟩

/-- Result of LoadMemory (sam9boot.c lines 354-400).  `ok` is the
`MemoryCount == Count` success return; `unresponsive` the line-389 failure
(ResponseCount zero during a required exchange); `mismatch` the line-395
failure (loop finished but `MemoryCount != Count`); `fuelOut` is an artifact
of the fuel-bounded embedding, proved unreachable for fuel above the
requested count.  Every constructor carries the memory bytes accumulated so
far, mirroring the global MemoryBuffer/MemoryCount that persist after a
failure. -/
inductive DownloadResult where
  | ok (bytes : List Nat)
  | unresponsive (bytes : List Nat)
  | mismatch (bytes : List Nat)
  | fuelOut (bytes : List Nat)
deriving DecidableEq, Repr

/-- Memory bytes accumulated by a download, whatever its outcome (the global
MemoryBuffer contents up to MemoryCount). -/
def resultBytes : DownloadResult → List Nat
  | .ok bs => bs
  | .unresponsive bs => bs
  | .mismatch bs => bs
  | .fuelOut bs => bs

def isFuelOut : DownloadResult → Bool
  | .fuelOut _ => true
  | _ => false

/-- The download loop of LoadMemory (sam9boot.c lines 356-399).  Each
iteration sends a read command for the current address and chunk width (the
command text is determined by `(address, chunk)`, so the target is abstracted
as a function of those), captures one Reply, and on a responsive reply
unpacks the value little-endian into the buffer; a zero ResponseCount returns
the unresponsive failure at once.  After the loop, success requires
`MemoryCount == Count`. -/
def loadLoop (respond : Nat → Nat → Reply) (count : Nat) :
    Nat → Nat → Nat → List Nat → Nat → DownloadResult
  | _, length, _, buf, 0 =>
    if length < count then .fuelOut buf
    else if buf.length = count then .ok buf else .mismatch buf
  | address, length, chunk, buf, fuel + 1 =>
    if length < count then
      if (respond address chunk).count ≠ 0 then
        loadLoop respond count (address + chunk) (length + chunk)
          (nextChunk count (length + chunk) chunk)
          (unpackLoop (respond address chunk).value chunk buf) fuel
      else .unresponsive buf
    else if buf.length = count then .ok buf else .mismatch buf

/-- LoadMemory (sam9boot.c lines 354-400): the initial chunk width is computed
from the global ValueBytes (line 357) while the loop bound is the `Count`
parameter; main passes `ValueBytes` for `Count`, so the two coincide in every
actual call.  The fuel `count + 1` is enough for the loop to reach its exit
condition, proved below. -/
def loadMemory (respond : Nat → Nat → Reply) (valueBytes count start : Nat) : DownloadResult :=
  loadLoop respond count start 0 (initChunk valueBytes) [] (count + 1)

/-- The chunk-width invariant of both transfer loops: width 4 exactly while at
least 4 bytes remain, width 1 for a remainder of 0 to 3 bytes. -/
def ChunkInv (count length chunk : Nat) : Prop :=
  (4 ≤ count - length → chunk = 4) ∧ (count - length < 4 → chunk = 1)

/-! ### GetResponse and its hex scanner (sam9boot.c lines 137-160) -/

/-- Whitespace test of the C library scanf conversion (isspace on the
characters that can occur in a monitor reply). -/
def isSpaceCh (c : Char) : Bool := c == ' ' || c == '\t' || c == '\n' || c == '\r'

/-- Hexadecimal digit test of the C library scanf `%X` conversion. -/
def isHexDig (c : Char) : Bool :=
  (c ≥ '0' && c ≤ '9') || (c ≥ 'a' && c ≤ 'f') || (c ≥ 'A' && c ≤ 'F')

/-- Value of one hexadecimal digit. -/
def hexDigVal (c : Char) : Nat :=
  if c ≥ '0' && c ≤ '9' then c.toNat - '0'.toNat
  else if c ≥ 'a' && c ≤ 'f' then c.toNat - 'a'.toNat + 10
  else if c ≥ 'A' && c ≤ 'F' then c.toNat - 'A'.toNat + 10
  else 0

/-- Accumulate the maximal leading run of hexadecimal digits. -/
def hexDigitsVal : List Char → Nat → Nat
  | [], acc => acc
  | c :: rest, acc => if isHexDig c then hexDigitsVal rest (acc * 16 + hexDigVal c) else acc

/-- Model of the C library call `sscanf(s, "%X", &Value)` on the modelled
input space: skip leading whitespace, accept an optional `0x`/`0X` prefix
when a hex digit follows, then convert the maximal run of hex digits,
reduced modulo 2^32 on storing into the 32-bit unsigned Value; `none` when no
digits match, in which case the C call leaves Value untouched. -/
def sscanfHexX (cs : List Char) : Option Nat :=
  let cs1 := cs.dropWhile isSpaceCh
  let cs2 := match cs1 with
             | '0' :: x :: rest =>
               if (x == 'x' || x == 'X') && isHexDig (rest.headD ' ') then rest else cs1
             | _ => cs1
  if isHexDig (cs2.headD ' ') then some (hexDigitsVal cs2 0 % 2 ^ 32) else none

/-- The 3-state marker scan of GetResponse (sam9boot.c lines 152-158), run
over the captured burst: state 0 awaits a `0`; state 1 advances to state 2 on
an `x` and otherwise falls back to state 0, the inspected character being
consumed either way; state 2 runs `sscanf(Response+i, "%X", &Value)` on the
rest of the burst (current character included) and moves to state 3, in which
the remaining characters are ignored. -/
def scanLoop : List Char → Nat → Nat → Nat
  | [], _, v => v
  | c :: rest, state, v =>
    if state = 0 then scanLoop rest (if c = '0' then 1 else 0) v
    else if state = 1 then scanLoop rest (if c = 'x' then 2 else 0) v
    else if state = 2 then scanLoop rest 3 ((sscanfHexX (c :: rest)).getD v)
    else scanLoop rest state v

/-- Does the burst contain the two-character marker `0x` as a contiguous
substring? -/
def containsMarker : List Char → Bool
  | [] => false
  | c :: rest => (c == '0' && rest.head? == some 'x') || containsMarker rest

/-- Marker search equivalent to the scan loop, phrased by recursion: a `0`
followed by an `x` yields the remainder of the burst; a `0` followed by
anything else consumes both characters (the reset from state 1 does not
re-examine the inspected character); any other character is skipped. -/
def findMarker : List Char → Option (List Char)
  | [] => none
  | c :: rest =>
    if c = '0' then
      match rest with
      | [] => none
      | d :: rest2 => if d = 'x' then some rest2 else findMarker rest2
    else findMarker rest

/-- Capture of one GetResponse call on a stream of pending bytes: the number
of bytes captured (ResponseCount), the decoded value, and the bytes left for
later calls. -/
structure Burst where
  count : Nat
  value : Nat
  rest : List Char
deriving DecidableEq, Repr

/-- GetResponse (sam9boot.c lines 137-160): read while input is available and
`n < sizeof(Response) - 2`, i.e. capture at most 30 bytes into the 32-byte
buffer (the terminating 0 is then stored at index at most 30, in bounds);
scan the burst for a hex value when anything was captured. -/
def getResponse (stream : List Char) : Burst :=
  { count := (stream.take 30).length
    value := if (stream.take 30).length ≠ 0 then scanLoop (stream.take 30) 0 0 else 0
    rest := stream.drop 30 }

/-! ### Verify loop (sam9boot.c lines 555-568) -/

inductive VerifyResult where
  | ok
  | mismatchAt (offset : Nat)
deriving DecidableEq, Repr

/-- The verify loop of main:
`for (i = 0; Success && (i < ValueBytes); i++) if (FileBuffer[i] != MemoryBuffer[i]) { error at i; Success = false; }`.
The recursion counts the remaining offsets `valueBytes - i` down to zero;
reading a buffer is modelled with getD, the loop only ever being reached with
both buffers holding exactly ValueBytes bytes. -/
def verifyGo (fileBuffer memoryBuffer : List Nat) : Nat → Nat → VerifyResult
  | _, 0 => .ok
  | i, rem + 1 =>
    if fileBuffer.getD i 0 ≠ memoryBuffer.getD i 0 then .mismatchAt i
    else verifyGo fileBuffer memoryBuffer (i + 1) rem

/-- Verify phase comparison over the first `valueBytes` offsets. -/
def verifyLoop (fileBuffer memoryBuffer : List Nat) (valueBytes : Nat) : VerifyResult :=
  verifyGo fileBuffer memoryBuffer 0 valueBytes

/-! ### Hex dump (sam9boot.c lines 592-611) -/

/-- Lowercase hexadecimal digit character, as printed by `sprintf "%2.2x"`. -/
def hexChar (n : Nat) : Char :=
  if n < 10 then Char.ofNat ('0'.toNat + n) else Char.ofNat ('a'.toNat + (n - 10))

/-- High hex digit of a byte printed by `%2.2x` (bytes are below 256, so the
field is exactly two digits). -/
def hexHi (b : Nat) : Char := hexChar (b / 16 % 16)

/-- Low hex digit of a byte printed by `%2.2x`. -/
def hexLo (b : Nat) : Char := hexChar (b % 16)

/-- ASCII gutter character (sam9boot.c line 607):
`((Value > 0x1f) && (Value < 0x7f)) ? Value : '.'`. -/
def gutterChar (b : Nat) : Char :=
  if 0x1f < b ∧ b < 0x7f then Char.ofNat b else '.'

/-- Inner row loop of the dump (sam9boot.c lines 601-608): writes the two hex
digit characters at the running index j (then skips one column) and the
gutter character at the running index k, for each byte of the row. -/
def fillRow : List Nat → Nat → Nat → List Char → List Char
  | [], _, _, t => t
  | b :: rest, j, k, t =>
    fillRow rest (j + 3) (k + 1) (((t.set j (hexHi b)).set (j + 1) (hexLo b)).set k (gutterChar b))

/-- One dump row: the 66-byte template is filled with spaces and terminated
(sam9boot.c lines 597-600), so the printed row is 65 characters; j starts at
0 and k at 49. -/
def buildRow (bytes : List Nat) : List Char :=
  fillRow bytes 0 49 (List.replicate 65 ' ')

/-- Outer dump loop (sam9boot.c lines 596-611): one row per 16 bytes while
`Offset < MemoryCount`, the address label advancing by 16.  Each row pairs
the address with its 65 characters.  `fuel` structurally bounds the
iterations; `memory.length` is always enough. -/
def dumpLoop : Nat → List Nat → Nat → List (Nat × List Char)
  | 0, _, _ => []
  | _, [], _ => []
  | fuel + 1, mem, address =>
    (address, buildRow (mem.take 16)) :: dumpLoop fuel (mem.drop 16) (address + 16)

/-- The dump phase on a downloaded memory image starting at `start`. -/
def dumpRows (memory : List Nat) (start : Nat) : List (Nat × List Char) :=
  dumpLoop memory.length memory start

/-! ### Terminal emulator cycle (sam9boot.c lines 183-198) -/

/-- Observable effects of one pass of the terminal do-while body: bytes
written to the target, bytes locally echoed to the console, target bytes
drained to the console, and the value of Key at the loop test. -/
structure CycleResult where
  sentToTarget : List Nat
  echoedToConsole : List Nat
  drainedToConsole : List Nat
  key : Nat
deriving DecidableEq, Repr

/-- Carriage-return remap (sam9boot.c lines 186-188): 0x0d becomes the
monitor end-of-line character `#` (0x23) before any forwarding. -/
def remapKey (b : Nat) : Nat := if b = 0x0d then 0x23 else b

/-- Drain loop (sam9boot.c lines 193-197): each available target byte is
stored in Key, written to the console, and Key is then cleared to 0.
Returns the final Key and the drained bytes. -/
def drainLoop : List Nat → Nat → Nat × List Nat
  | [], key => (key, [])
  | b :: rest, _ => ((drainLoop rest 0).1, b :: (drainLoop rest 0).2)

/-- One pass of the terminal emulator body: if a console byte is available it
is read, remapped, forwarded to the target unconditionally, and echoed
locally exactly when the (remapped) byte is strictly between 0x1f and 0x7f;
then all available target bytes are drained to the console. -/
def terminalCycle (consoleByte : Option Nat) (targetBytes : List Nat) (key0 : Nat) :
    CycleResult :=
  match consoleByte with
  | none =>
    ⟨[], [], (drainLoop targetBytes key0).2, (drainLoop targetBytes key0).1⟩
  | some b =>
    let k := remapKey b
    ⟨[k], if 0x1f < k ∧ k < 0x7f then [k] else [],
      (drainLoop targetBytes k).2, (drainLoop targetBytes k).1⟩

/-- Loop exit test (sam9boot.c line 198): the do-while continues while
`(Key != 0x1b) && (Key != 0x03)`. -/
def cycleExits (r : CycleResult) : Bool := r.key == 0x1b || r.key == 0x03

/-! ### LoadFile and the operation sequencing of main (sam9boot.c lines 409-435, 441-639) -/

/-- LoadFile (sam9boot.c lines 409-435): fails when opening fails or the file
is empty; when no byte count was requested (`ValueBytes == 0`), the file size
becomes the transfer size; the `fread` of `ValueBytes` bytes succeeds exactly
when the file holds at least that many.  Returns the loaded buffer together
with the updated ValueBytes. -/
def loadFile (opens : Bool) (fileBytes : List Nat) (valueBytes : Nat) : Option (List Nat × Nat) :=
  if opens then
    if fileBytes.length = 0 then none
    else
      let vb := if valueBytes = 0 then fileBytes.length else valueBytes
      if vb ≤ fileBytes.length then some (fileBytes.take vb, vb) else none
  else none

/-- Mode flags of one run (the switch parameters of sam9boot.c lines 65-69
that drive operation sequencing). -/
structure Flags where
  cpu : Bool
  send : Bool
  verify : Bool
  receive : Bool
  dump : Bool

/-- Environment behaviour of one run: the reply to the part-id query, whether
a file name was given, whether the host file opens, its content, the target
behaviour for the download, and whether the receive-phase file write
succeeds. -/
structure Env where
  cpuReply : Reply
  fileNamed : Bool
  fileOpens : Bool
  fileBytes : List Nat
  respond : Nat → Nat → Reply
  writeOk : Bool

/-- Session state threaded through the operation stages of main: the shared
Success flag, the FileBuffer/ValueBytes globals, the MemoryBuffer contents,
and a record of which operations ran and what they produced. -/
structure St where
  success : Bool
  fileLoaded : Bool
  fileBuf : List Nat
  vb : Nat
  sendWrites : Option (List (Nat × Nat × Nat))
  downloadRan : Bool
  memory : List Nat
  verifyRan : Bool
  verifyOutcome : Option VerifyResult
  receiveRan : Bool
  dumpOut : Option (List (Nat × List Char))

def initSt (valueBytes : Nat) : St :=
  ⟨true, false, [], valueBytes, none, false, [], false, none, false, none⟩

/-- CPU part-id query (sam9boot.c lines 465-476): a zero ResponseCount
clears Success. -/
def cpuStage (flags : Flags) (env : Env) (s : St) : St :=
  if flags.cpu then
    if env.cpuReply.count ≠ 0 then s else { s with success := false }
  else s

/-- File image load for send/verify (sam9boot.c lines 484-494), gated on
`Success && (FlagSend | FlagVerify)`; a missing file name or a failed
LoadFile clears Success. -/
def fileStage (flags : Flags) (env : Env) (s : St) : St :=
  if s.success && (flags.send || flags.verify) then
    if env.fileNamed then
      match loadFile env.fileOpens env.fileBytes s.vb with
      | some fb => { s with fileLoaded := true, fileBuf := fb.1, vb := fb.2 }
      | none => { s with success := false }
    else { s with success := false }
  else s

/-- Send phase (sam9boot.c lines 500-534), gated on `Success && FlagSend`;
the monitor replies are not validated, so the phase always completes. -/
def sendStage (flags : Flags) (start : Nat) (s : St) : St :=
  if s.success && flags.send then
    { s with sendWrites := some (sendLoop s.fileBuf s.vb start 0 (initChunk s.vb) (s.vb + 1)) }
  else s

/-- Download phase (sam9boot.c lines 540-550), gated on
`Success && (FlagVerify | FlagReceive | FlagDump)`; a zero ValueBytes or a
failed LoadMemory clears Success; the bytes accumulated before a failure
stay in MemoryBuffer. -/
def downloadStage (flags : Flags) (env : Env) (start : Nat) (s : St) : St :=
  if s.success && (flags.verify || flags.receive || flags.dump) then
    if s.vb ≠ 0 then
      match loadMemory env.respond s.vb s.vb start with
      | .ok bs => { s with downloadRan := true, memory := bs }
      | r => { s with downloadRan := true, memory := resultBytes r, success := false }
    else { s with success := false }
  else s

/-- Verify phase (sam9boot.c lines 555-568), gated on
`Success && FlagVerify`; a mismatch clears Success. -/
def verifyStage (flags : Flags) (s : St) : St :=
  if s.success && flags.verify then
    if s.vb ≠ 0 then
      match verifyLoop s.fileBuf s.memory s.vb with
      | .ok => { s with verifyRan := true, verifyOutcome := some .ok }
      | .mismatchAt i =>
        { s with verifyRan := true, verifyOutcome := some (.mismatchAt i), success := false }
    else { s with success := false }
  else s

/-- Receive phase (sam9boot.c lines 574-586), gated on
`Success && FlagReceive && MemoryCount`; an open or write failure clears
Success. -/
def receiveStage (flags : Flags) (env : Env) (s : St) : St :=
  if s.success && flags.receive && s.memory.length ≠ 0 then
    if env.writeOk then { s with receiveRan := true }
    else { s with receiveRan := true, success := false }
  else s

/-- Dump phase (sam9boot.c lines 592-611), gated on `FlagDump && MemoryCount`
only: the Success flag is not consulted. -/
def dumpStage (flags : Flags) (start : Nat) (s : St) : St :=
  if flags.dump && s.memory.length ≠ 0 then
    { s with dumpOut := some (dumpRows s.memory start) }
  else s

/-- The operation sequence of main after the handshake (sam9boot.c lines
461-611), with the stages applied in source order. -/
def mainRun (flags : Flags) (env : Env) (valueBytes start : Nat) : St :=
  dumpStage flags start
    (receiveStage flags env
      (verifyStage flags
        (downloadStage flags env start
          (sendStage flags start
            (fileStage flags env
              (cpuStage flags env (initSt valueBytes)))))))

/-! ## Bit-level lemmas for the little-endian pack and unpack -/

theorem lor_shiftLeft_eq_add (x y k : Nat) (hx : x < 2 ^ k) :
    x ||| (y <<< k) = x + y * 2 ^ k := by
  apply Nat.eq_of_testBit_eq
  intro i
  rw [Nat.testBit_or, Nat.testBit_shiftLeft]
  rcases Nat.lt_or_ge i k with hik | hik
  · have h1 : decide (i ≥ k) = false := by simp; omega
    rw [h1, Bool.false_and, Bool.or_false]
    have hky : x + y * 2 ^ k = x + 2 ^ i * (2 * (y * 2 ^ (k - i - 1))) := by
      have hpow : (2 : Nat) ^ k = 2 ^ i * 2 * 2 ^ (k - i - 1) := by
        rw [Nat.mul_assoc, ← Nat.pow_succ', ← Nat.pow_add]
        congr 1
        omega
      rw [hpow]
      ring
    rw [Nat.testBit_to_div_mod, Nat.testBit_to_div_mod, hky,
      Nat.add_mul_div_left _ _ (Nat.two_pow_pos i), Nat.mul_comm 2 (y * 2 ^ (k - i - 1)),
      Nat.add_mul_mod_self_right]
  · have h1 : decide (i ≥ k) = true := by simp [hik]
    have hx0 : x.testBit i = false :=
      Nat.testBit_lt_two_pow (Nat.lt_of_lt_of_le hx (Nat.pow_le_pow_right (by omega) hik))
    rw [h1, hx0, Bool.true_and, Bool.false_or,
      Nat.testBit_to_div_mod, Nat.testBit_to_div_mod]
    have h2 : (x + y * 2 ^ k) / 2 ^ i = y / 2 ^ (i - k) := by
      have hsplit : (2 : Nat) ^ i = 2 ^ k * 2 ^ (i - k) := by
        rw [← Nat.pow_add]
        congr 1
        omega
      rw [hsplit, ← Nat.div_div_eq_div_mul, Nat.mul_comm y (2 ^ k),
        Nat.add_mul_div_left _ _ (Nat.two_pow_pos k), Nat.div_eq_of_lt hx, Nat.zero_add]
    rw [h2]

theorem getD_lt_256 (buf : List Nat) (h : ∀ b ∈ buf, b < 256) (i : Nat) :
    buf.getD i 0 < 256 := by
  rcases Nat.lt_or_ge i buf.length with hi | hi
  · rw [List.getD_eq_getElem?_getD, List.getElem?_eq_getElem hi]
    exact h _ (List.getElem_mem hi)
  · rw [List.getD_eq_getElem?_getD, List.getElem?_eq_none hi]
    simp

theorem chunkBytesVal_lt (buf : List Nat) (h : ∀ b ∈ buf, b < 256) :
    ∀ c len, chunkBytesVal buf len c < 2 ^ (8 * c) := by
  intro c
  induction c with
  | zero => intro len; simp [chunkBytesVal]
  | succ c ih =>
    intro len
    have h1 := getD_lt_256 buf h len
    have h2 := ih (len + 1)
    have h3 : 2 ^ (8 * (c + 1)) = 256 * 2 ^ (8 * c) := by
      rw [Nat.mul_add, Nat.pow_add]
      ring
    simp only [chunkBytesVal]
    omega

theorem chunkBytesVal_peel (buf : List Nat) :
    ∀ c len, chunkBytesVal buf len c + buf.getD (len + c) 0 * 2 ^ (8 * c) =
      chunkBytesVal buf len (c + 1) := by
  intro c
  induction c with
  | zero => intro len; simp [chunkBytesVal]
  | succ c ih =>
    intro len
    have h1 := ih (len + 1)
    have h3 : 2 ^ (8 * (c + 1)) = 256 * 2 ^ (8 * c) := by
      rw [Nat.mul_add, Nat.pow_add]
      ring
    have h5 : buf.getD (len + (c + 1)) 0 * 2 ^ (8 * (c + 1)) =
        256 * (buf.getD (len + (c + 1)) 0 * 2 ^ (8 * c)) := by
      rw [h3]
      ring
    simp only [chunkBytesVal] at h1 ⊢
    have h4 : len + 1 + c = len + (c + 1) := by omega
    rw [h4] at h1
    omega

theorem packValue_succ (buf : List Nat) (len c : Nat) :
    packValue buf len (c + 1) = packValue buf len c ||| (buf.getD (len + c) 0 <<< (c * 8)) := by
  unfold packValue
  rw [List.range_succ, List.foldl_append]
  rfl

theorem packValue_eq (buf : List Nat) (h : ∀ b ∈ buf, b < 256) (len : Nat) :
    ∀ c, packValue buf len c = chunkBytesVal buf len c := by
  intro c
  induction c with
  | zero => rfl
  | succ c ih =>
    rw [packValue_succ, ih]
    have hb : chunkBytesVal buf len c < 2 ^ (c * 8) := by
      have := chunkBytesVal_lt buf h c len
      rwa [Nat.mul_comm 8 c] at this
    rw [lor_shiftLeft_eq_add _ _ _ hb,
      show (2 : Nat) ^ (c * 8) = 2 ^ (8 * c) by rw [Nat.mul_comm],
      chunkBytesVal_peel]

theorem unpackLoop_eq (chunk : Nat) :
    ∀ value buf, unpackLoop value chunk buf = buf ++ unpackBytes value chunk := by
  induction chunk with
  | zero => intro value buf; simp [unpackLoop, unpackBytes]
  | succ c ih => intro value buf; simp [unpackLoop, unpackBytes, ih]

theorem unpackBytes_length (chunk : Nat) :
    ∀ value, (unpackBytes value chunk).length = chunk := by
  induction chunk with
  | zero => intro value; rfl
  | succ c ih => intro value; simp [unpackBytes, ih]

theorem unpackLoop_length (chunk : Nat) (value : Nat) (buf : List Nat) :
    (unpackLoop value chunk buf).length = buf.length + chunk := by
  rw [unpackLoop_eq, List.length_append, unpackBytes_length]

theorem unpackBytes_add (b K c : Nat) (hb : b < 256) :
    unpackBytes (b + 256 * K) (c + 1) = b :: unpackBytes K c := by
  have h1 : (b + 256 * K) &&& 0xff = b := by
    have h255 : (0xff : Nat) = 2 ^ 8 - 1 := by norm_num
    rw [h255, Nat.and_pow_two_sub_one_eq_mod]
    omega
  have h2 : (b + 256 * K) >>> 8 = K := by
    rw [Nat.shiftRight_eq_div_pow]
    omega
  simp [unpackBytes, h1, h2]

theorem take_append_unpack (bytes : List Nat) (h : ∀ b ∈ bytes, b < 256) :
    ∀ c len, len + c ≤ bytes.length →
      bytes.take len ++ unpackBytes (chunkBytesVal bytes len c) c = bytes.take (len + c) := by
  intro c
  induction c with
  | zero => intro len _; simp [unpackBytes, chunkBytesVal]
  | succ c ih =>
    intro len hlen
    have hb : bytes.getD len 0 < 256 := getD_lt_256 bytes h len
    have hstep : chunkBytesVal bytes len (c + 1) =
        bytes.getD len 0 + 256 * chunkBytesVal bytes (len + 1) c := rfl
    rw [hstep, unpackBytes_add _ _ _ hb]
    have hlt : len < bytes.length := by omega
    have htake : bytes.take (len + 1) = bytes.take len ++ [bytes.getD len 0] := by
      rw [List.take_succ, List.getElem?_eq_getElem hlt]
      simp [List.getD_eq_getElem?_getD, List.getElem?_eq_getElem hlt]
    have hres := ih (len + 1) (by omega)
    calc bytes.take len ++ bytes.getD len 0 :: unpackBytes (chunkBytesVal bytes (len + 1) c) c
        = (bytes.take len ++ [bytes.getD len 0]) ++
            unpackBytes (chunkBytesVal bytes (len + 1) c) c := by
          rw [List.append_assoc]; rfl
      _ = bytes.take (len + 1) ++ unpackBytes (chunkBytesVal bytes (len + 1) c) c := by
          rw [htake]
      _ = bytes.take (len + 1 + c) := hres
      _ = bytes.take (len + (c + 1)) := by congr 1; omega

/-! ## Chunk policy lemmas -/

theorem chunkInv_init (count : Nat) : ChunkInv count 0 (initChunk count) := by
  unfold ChunkInv initChunk
  constructor <;> intro h <;> split <;> omega

theorem chunkInv_cases {count length chunk : Nat} (h : ChunkInv count length chunk) :
    chunk = 1 ∨ chunk = 4 := by
  rcases Nat.lt_or_ge (count - length) 4 with h1 | h1
  · exact Or.inl (h.2 h1)
  · exact Or.inr (h.1 h1)

theorem chunkInv_next {count length chunk : Nat} (h : ChunkInv count length chunk)
    (hlt : length < count) :
    ChunkInv count (length + chunk) (nextChunk count (length + chunk) chunk) ∧
      length + chunk ≤ count := by
  obtain ⟨h4, h1⟩ := h
  unfold ChunkInv nextChunk
  by_cases hc : 4 ≤ count - length
  · have hch := h4 hc
    subst hch
    refine ⟨⟨?_, ?_⟩, ?_⟩
    · intro h2; split <;> omega
    · intro h2; split <;> omega
    · omega
  · have hch := h1 (by omega)
    subst hch
    refine ⟨⟨?_, ?_⟩, ?_⟩
    · intro h2; split <;> omega
    · intro h2; split <;> omega
    · omega

/-! ## Download loop lemmas -/

theorem loadLoop_step (respond : Nat → Nat → Reply) (count address length chunk : Nat)
    (buf : List Nat) (fuel : Nat) (hlt : length < count)
    (hr : (respond address chunk).count ≠ 0) :
    loadLoop respond count address length chunk buf (fuel + 1) =
      loadLoop respond count (address + chunk) (length + chunk)
        (nextChunk count (length + chunk) chunk)
        (unpackLoop (respond address chunk).value chunk buf) fuel := by
  simp only [loadLoop]
  rw [if_pos hlt, if_pos hr]

theorem loadLoop_zero_reply (respond : Nat → Nat → Reply) (count address length chunk : Nat)
    (buf : List Nat) (fuel : Nat) (hlt : length < count)
    (hr : (respond address chunk).count = 0) :
    loadLoop respond count address length chunk buf (fuel + 1) =
      .unresponsive buf := by
  simp only [loadLoop]
  rw [if_pos hlt, if_neg (fun hn => hn hr)]

theorem loadLoop_exit (respond : Nat → Nat → Reply) (count address length chunk : Nat)
    (buf : List Nat) (fuel : Nat) (hge : ¬ length < count) :
    loadLoop respond count address length chunk buf fuel =
      if buf.length = count then .ok buf else .mismatch buf := by
  cases fuel <;> simp only [loadLoop] <;> rw [if_neg hge]

theorem loadLoop_ok_length (respond : Nat → Nat → Reply) (count : Nat) :
    ∀ fuel address length chunk buf bs,
      loadLoop respond count address length chunk buf fuel = .ok bs → bs.length = count := by
  intro fuel
  induction fuel with
  | zero =>
    intro address length chunk buf bs hok
    simp only [loadLoop] at hok
    split at hok
    · simp at hok
    · split at hok
      · injection hok with h
        subst h
        assumption
      · simp at hok
  | succ f ih =>
    intro address length chunk buf bs hok
    simp only [loadLoop] at hok
    split at hok
    · split at hok
      · exact ih _ _ _ _ _ hok
      · simp at hok
    · split at hok
      · injection hok with h
        subst h
        assumption
      · simp at hok

theorem loadLoop_no_fuelOut (respond : Nat → Nat → Reply) (count : Nat) :
    ∀ fuel length chunk address buf, (chunk = 1 ∨ chunk = 4) → count - length < fuel →
      isFuelOut (loadLoop respond count address length chunk buf fuel) = false := by
  intro fuel
  induction fuel with
  | zero => intro length chunk address buf _ hf; omega
  | succ f ih =>
    intro length chunk address buf hc hf
    by_cases hlt : length < count
    · simp only [loadLoop]
      rw [if_pos hlt]
      by_cases hr : (respond address chunk).count ≠ 0
      · rw [if_pos hr]
        apply ih
        · unfold nextChunk
          split
          · exact Or.inl rfl
          · exact hc
        · rcases hc with h | h <;> subst h <;> omega
      · rw [if_neg hr]
        rfl
    · rw [loadLoop_exit _ _ _ _ _ _ _ hlt]
      split <;> rfl

theorem loadLoop_length_le (respond : Nat → Nat → Reply) (count : Nat) :
    ∀ fuel address length chunk buf,
      buf.length = length → length ≤ count → ChunkInv count length chunk →
      (resultBytes (loadLoop respond count address length chunk buf fuel)).length ≤ count := by
  intro fuel
  induction fuel with
  | zero =>
    intro address length chunk buf hb hle _
    simp only [loadLoop]
    split
    · simp only [resultBytes]; omega
    · split <;> simp only [resultBytes] <;> omega
  | succ f ih =>
    intro address length chunk buf hb hle hinv
    by_cases hlt : length < count
    · simp only [loadLoop]
      rw [if_pos hlt]
      by_cases hr : (respond address chunk).count ≠ 0
      · rw [if_pos hr]
        obtain ⟨hinv2, hle2⟩ := chunkInv_next hinv hlt
        exact ih _ _ _ _ (by rw [unpackLoop_length]; omega) hle2 hinv2
      · rw [if_neg hr]
        simp only [resultBytes]
        omega
    · rw [loadLoop_exit _ _ _ _ _ _ _ hlt]
      split <;> simp only [resultBytes] <;> omega

theorem loadMemory_length_le (respond : Nat → Nat → Reply) (count start : Nat) :
    (resultBytes (loadMemory respond count count start)).length ≤ count := by
  unfold loadMemory
  exact loadLoop_length_le respond count (count + 1) start 0 (initChunk count) [] rfl
    (by omega) (chunkInv_init count)

theorem loadMemory_no_fuelOut (respond : Nat → Nat → Reply) (count start : Nat) :
    isFuelOut (loadMemory respond count count start) = false := by
  unfold loadMemory
  apply loadLoop_no_fuelOut
  · unfold initChunk
    split
    · exact Or.inr rfl
    · exact Or.inl rfl
  · omega

theorem loadMemory_ok_length (respond : Nat → Nat → Reply) (valueBytes count start : Nat)
    (bs : List Nat) (h : loadMemory respond valueBytes count start = .ok bs) :
    bs.length = count :=
  loadLoop_ok_length respond count _ _ _ _ _ _ h

/-! ## Send loop lemmas -/

theorem sendLoop_widthSum (fileBuffer : List Nat) (valueBytes : Nat) :
    ∀ fuel length chunk address,
      length ≤ valueBytes → ChunkInv valueBytes length chunk → valueBytes - length < fuel →
      widthSum (sendLoop fileBuffer valueBytes address length chunk fuel) =
        valueBytes - length := by
  intro fuel
  induction fuel with
  | zero => intro length chunk address _ _ hf; omega
  | succ f ih =>
    intro length chunk address hle hinv hf
    by_cases hlt : length < valueBytes
    · simp only [sendLoop]
      rw [if_pos hlt]
      obtain ⟨hinv2, hle2⟩ := chunkInv_next hinv hlt
      have hrec := ih (length + chunk) (nextChunk valueBytes (length + chunk) chunk)
        (address + chunk) hle2 hinv2
        (by rcases chunkInv_cases hinv with h | h <;> subst h <;> omega)
      simp only [widthSum, List.map_cons, List.sum_cons] at hrec ⊢
      omega
    · simp only [sendLoop]
      rw [if_neg hlt]
      simp only [widthSum, List.map_nil, List.sum_nil]
      omega

theorem upload_widthSum (bytes : List Nat) (start : Nat) :
    widthSum (upload bytes start) = bytes.length := by
  unfold upload
  rw [sendLoop_widthSum bytes bytes.length (bytes.length + 1) 0 (initChunk bytes.length) start
    (by omega) (chunkInv_init _) (by omega)]
  omega

/-! ## Roundtrip: download over a simulated target inverts upload -/

theorem find?_writes (address c v : Nat) (tail : List (Nat × Nat × Nat)) :
    ∀ preW : List (Nat × Nat × Nat), (∀ w ∈ preW, w.1 < address) →
      List.find? (fun w => w.1 == address) (preW ++ (address, c, v) :: tail) =
        some (address, c, v) := by
  intro preW
  induction preW with
  | nil =>
    intro _
    simp
  | cons w ws ih =>
    intro hp
    have hw : w.1 < address := hp w (by simp)
    have hne : (w.1 == address) = false := by
      simp only [beq_eq_false_iff_ne, ne_eq]
      omega
    rw [List.cons_append, List.find?_cons_of_neg _ (by simp [hne])]
    exact ih (fun w1 hw1 => hp w1 (by simp [hw1]))

theorem roundtrip_aux (bytes : List Nat) (h256 : ∀ b ∈ bytes, b < 256) :
    ∀ fuel address length chunk preW,
      length ≤ bytes.length →
      ChunkInv bytes.length length chunk →
      bytes.length - length < fuel →
      (∀ w ∈ preW, w.1 < address) →
      loadLoop (targetOf (preW ++ sendLoop bytes bytes.length address length chunk fuel))
        bytes.length address length chunk (bytes.take length) fuel = .ok bytes := by
  intro fuel
  induction fuel with
  | zero => intro address length chunk preW _ _ hf _; omega
  | succ f ih =>
    intro address length chunk preW hle hinv hf hpre
    have hcpos : 1 ≤ chunk := by rcases chunkInv_cases hinv with h | h <;> omega
    by_cases hlt : length < bytes.length
    · have hsend : sendLoop bytes bytes.length address length chunk (f + 1) =
          (address, chunk, packValue bytes length chunk) ::
            sendLoop bytes bytes.length (address + chunk) (length + chunk)
              (nextChunk bytes.length (length + chunk) chunk) f := by
        simp only [sendLoop]
        rw [if_pos hlt]
      rw [hsend]
      have hfind : targetOf (preW ++ (address, chunk, packValue bytes length chunk) ::
          sendLoop bytes bytes.length (address + chunk) (length + chunk)
            (nextChunk bytes.length (length + chunk) chunk) f) address chunk =
          ⟨1, packValue bytes length chunk⟩ := by
        unfold targetOf
        rw [find?_writes _ _ _ _ preW hpre]
      have hchunkle : length + chunk ≤ bytes.length := (chunkInv_next hinv hlt).2
      have hbuf : unpackLoop (packValue bytes length chunk) chunk (bytes.take length) =
          bytes.take (length + chunk) := by
        rw [unpackLoop_eq, packValue_eq bytes h256, take_append_unpack bytes h256 _ _ hchunkle]
      simp only [loadLoop]
      rw [if_pos hlt, hfind, if_pos (by simp), hbuf]
      have hassoc : preW ++ (address, chunk, packValue bytes length chunk) ::
          sendLoop bytes bytes.length (address + chunk) (length + chunk)
            (nextChunk bytes.length (length + chunk) chunk) f =
          (preW ++ [(address, chunk, packValue bytes length chunk)]) ++
            sendLoop bytes bytes.length (address + chunk) (length + chunk)
              (nextChunk bytes.length (length + chunk) chunk) f := by
        simp
      rw [hassoc]
      apply ih
      · exact hchunkle
      · exact (chunkInv_next hinv hlt).1
      · omega
      · intro w hw
        rcases List.mem_append.mp hw with hmem | hmem
        · have := hpre w hmem
          omega
        · simp at hmem
        -- the singleton case gives w = (address, chunk, packValue), so w.1 = address
          subst hmem
          simp
          omega
    · have hlen : length = bytes.length := by omega
      subst hlen
      rw [loadLoop_exit _ _ _ _ _ _ _ hlt, List.take_length, if_pos rfl]

/-- Roundtrip over the simulated register-storing target. -/
theorem upload_loadMemory_ok (bytes : List Nat) (start : Nat) (h256 : ∀ b ∈ bytes, b < 256) :
    loadMemory (targetOf (upload bytes start)) bytes.length bytes.length start = .ok bytes := by
  unfold loadMemory upload
  have := roundtrip_aux bytes h256 (bytes.length + 1) start 0 (initChunk bytes.length) []
    (by omega) (chunkInv_init _) (by omega) (by intro w hw; simp at hw)
  simpa using this

/-! ## Scanner lemmas -/

theorem scanLoop_state3 : ∀ (cs : List Char) (v : Nat), scanLoop cs 3 v = v := by
  intro cs
  induction cs with
  | nil => intro v; rfl
  | cons c rest ih => intro v; simp [scanLoop, ih]

theorem scanLoop_state2 : ∀ (cs : List Char) (v : Nat),
    scanLoop cs 2 v = (sscanfHexX cs).getD v := by
  intro cs v
  cases cs with
  | nil => rfl
  | cons c rest => simp [scanLoop, scanLoop_state3]

theorem scan_find_aux : ∀ (n : Nat) (cs : List Char), cs.length ≤ n → ∀ v,
    scanLoop cs 0 v =
      (match findMarker cs with
       | some rest => (sscanfHexX rest).getD v
       | none => v) := by
  intro n
  induction n with
  | zero =>
    intro cs hcs v
    have hnil : cs = [] := List.eq_nil_of_length_eq_zero (by omega)
    subst hnil
    rfl
  | succ n ih =>
    intro cs hcs v
    cases cs with
    | nil => rfl
    | cons c rest =>
      by_cases hc : c = '0'
      · subst hc
        rw [show scanLoop ('0' :: rest) 0 v = scanLoop rest 1 v by simp [scanLoop]]
        cases rest with
        | nil => simp [scanLoop, findMarker]
        | cons d rest2 =>
          by_cases hd : d = 'x'
          · subst hd
            rw [show scanLoop ('x' :: rest2) 1 v = scanLoop rest2 2 v by simp [scanLoop],
              scanLoop_state2]
            simp [findMarker]
          · rw [show scanLoop (d :: rest2) 1 v = scanLoop rest2 0 v by simp [scanLoop, hd],
              ih rest2 (by simp at hcs; omega) v,
              show findMarker ('0' :: d :: rest2) = findMarker rest2 by simp [findMarker, hd]]
      · rw [show scanLoop (c :: rest) 0 v = scanLoop rest 0 v by simp [scanLoop, hc],
          ih rest (by simp at hcs; omega) v,
          show findMarker (c :: rest) = findMarker rest by rw [findMarker.eq_def]; simp [hc]]

/-- The scan of GetResponse decodes exactly the value after the first
marker occurrence that the skipping matcher accepts. -/
theorem scan_eq_findMarker (cs : List Char) (v : Nat) :
    scanLoop cs 0 v =
      (match findMarker cs with
       | some rest => (sscanfHexX rest).getD v
       | none => v) :=
  scan_find_aux cs.length cs (Nat.le_refl _) v

theorem containsMarker_tail {c : Char} {cs : List Char}
    (h : containsMarker (c :: cs) = false) : containsMarker cs = false := by
  simp only [containsMarker, Bool.or_eq_false_iff] at h
  exact h.2

theorem noMarker_findMarker : ∀ (n : Nat) (cs : List Char), cs.length ≤ n →
    containsMarker cs = false → findMarker cs = none := by
  intro n
  induction n with
  | zero =>
    intro cs hcs _
    have hnil : cs = [] := List.eq_nil_of_length_eq_zero (by omega)
    subst hnil
    rfl
  | succ n ih =>
    intro cs hcs hm
    cases cs with
    | nil => rfl
    | cons c rest =>
      by_cases hc : c = '0'
      · subst hc
        cases rest with
        | nil => rfl
        | cons d rest2 =>
          have hd : d ≠ 'x' := by
            simp only [containsMarker, Bool.or_eq_false_iff, Bool.and_eq_false_iff] at hm
            rcases hm.1 with h1 | h1
            · simp at h1
            · simp only [List.head?] at h1
              intro hdx
              rw [hdx] at h1
              simp at h1
          have hm2 : containsMarker rest2 = false :=
            containsMarker_tail (containsMarker_tail hm)
          rw [show findMarker ('0' :: d :: rest2) = findMarker rest2 by simp [findMarker, hd]]
          exact ih rest2 (by simp at hcs; omega) hm2
      · rw [show findMarker (c :: rest) = findMarker rest by rw [findMarker.eq_def]; simp [hc]]
        exact ih rest (by simp at hcs; omega) (containsMarker_tail hm)

theorem no_marker_scan_zero (cs : List Char) (h : containsMarker cs = false) :
    scanLoop cs 0 0 = 0 := by
  rw [scan_eq_findMarker, noMarker_findMarker cs.length cs (Nat.le_refl _) h]

/-! ## Verify loop lemmas -/

theorem verifyGo_ok_iff (f m : List Nat) : ∀ rem i,
    verifyGo f m i rem = .ok ↔ ∀ j, i ≤ j → j < i + rem → f.getD j 0 = m.getD j 0 := by
  intro rem
  induction rem with
  | zero =>
    intro i
    simp only [verifyGo, true_iff]
    intro j h1 h2
    omega
  | succ rem ih =>
    intro i
    simp only [verifyGo]
    by_cases hne : f.getD i 0 ≠ m.getD i 0
    · rw [if_pos hne]
      constructor
      · intro h
        simp at h
      · intro h
        exact absurd (h i (Nat.le_refl i) (by omega)) hne
    · rw [if_neg hne]
      push_neg at hne
      rw [ih (i + 1)]
      constructor
      · intro h j h1 h2
        rcases Nat.eq_or_lt_of_le h1 with he | hl
        · rw [← he]
          exact hne
        · exact h j (by omega) (by omega)
      · intro h j h1 h2
        exact h j (by omega) (by omega)

theorem verifyGo_mismatch (f m : List Nat) : ∀ rem i k,
    verifyGo f m i rem = .mismatchAt k →
      i ≤ k ∧ k < i + rem ∧ f.getD k 0 ≠ m.getD k 0 ∧
        ∀ j, i ≤ j → j < k → f.getD j 0 = m.getD j 0 := by
  intro rem
  induction rem with
  | zero =>
    intro i k h
    simp [verifyGo] at h
  | succ rem ih =>
    intro i k h
    simp only [verifyGo] at h
    by_cases hne : f.getD i 0 ≠ m.getD i 0
    · rw [if_pos hne] at h
      injection h with h1
      subst h1
      exact ⟨Nat.le_refl _, by omega, hne, fun j hj1 hj2 => by omega⟩
    · rw [if_neg hne] at h
      push_neg at hne
      obtain ⟨h1, h2, h3, h4⟩ := ih (i + 1) k h
      refine ⟨by omega, by omega, h3, ?_⟩
      intro j hj1 hj2
      rcases Nat.eq_or_lt_of_le hj1 with he | hl
      · rw [← he]
        exact hne
      · exact h4 j (by omega) hj2

theorem getD_eq_getElem (l : List Nat) (i : Nat) (h : i < l.length) :
    l.getD i 0 = l[i] := by
  rw [List.getD_eq_getElem?_getD, List.getElem?_eq_getElem h]
  rfl

theorem verifyLoop_ok_iff (f m : List Nat) (n : Nat) (hf : f.length = n)
    (hm : m.length = n) : verifyLoop f m n = .ok ↔ f = m := by
  unfold verifyLoop
  rw [verifyGo_ok_iff]
  constructor
  · intro h
    apply List.ext_getElem (by omega)
    intro i h1 h2
    have h3 := h i (by omega) (by omega)
    rwa [getD_eq_getElem f i h1, getD_eq_getElem m i h2] at h3
  · intro h j _ _
    rw [h]

/-! ## Terminal emulator lemmas -/

theorem drainLoop_spec : ∀ (tgt : List Nat) (k : Nat),
    drainLoop tgt k = (if tgt = [] then k else 0, tgt) := by
  intro tgt
  induction tgt with
  | nil => intro k; rfl
  | cons b rest ih =>
    intro k
    simp [drainLoop, ih]

theorem terminalCycle_key (consoleByte : Option Nat) (targetBytes : List Nat) (key0 : Nat) :
    (terminalCycle consoleByte targetBytes key0).key =
      if targetBytes = [] then
        (match consoleByte with
         | none => key0
         | some b => remapKey b)
      else 0 := by
  cases consoleByte <;> simp [terminalCycle, drainLoop_spec]

/-! ## Hex dump lemmas -/

theorem fillRow_length : ∀ (bs : List Nat) (j k : Nat) (t : List Char),
    (fillRow bs j k t).length = t.length := by
  intro bs
  induction bs with
  | nil => intro j k t; rfl
  | cons b rest ih =>
    intro j k t
    simp only [fillRow]
    rw [ih]
    simp

theorem buildRow_length (bs : List Nat) : (buildRow bs).length = 65 := by
  unfold buildRow
  rw [fillRow_length]
  simp

theorem fillRow_frame : ∀ (bs : List Nat) (j k : Nat) (t : List Char) (p : Nat),
    (∀ i, i < bs.length → p ≠ j + 3 * i ∧ p ≠ j + 3 * i + 1 ∧ p ≠ k + i) →
    (fillRow bs j k t).getD p ' ' = t.getD p ' ' := by
  intro bs
  induction bs with
  | nil => intro j k t p _; rfl
  | cons b rest ih =>
    intro j k t p hp
    have h0 := hp 0 (by simp)
    have hcond : ∀ i, i < rest.length →
        p ≠ (j + 3) + 3 * i ∧ p ≠ (j + 3) + 3 * i + 1 ∧ p ≠ (k + 1) + i := by
      intro i hi
      have h1 := hp (i + 1) (by simp; omega)
      refine ⟨by omega, by omega, by omega⟩
    simp only [fillRow]
    rw [ih (j + 3) (k + 1) _ p hcond]
    simp only [List.getD_eq_getElem?_getD]
    rw [List.getElem?_set_ne (by omega : k ≠ p),
      List.getElem?_set_ne (by omega : j + 1 ≠ p),
      List.getElem?_set_ne (by omega : j ≠ p)]

theorem fillRow_hexHi : ∀ (bs : List Nat) (j k : Nat) (t : List Char) (i : Nat),
    i < bs.length → j + 3 * bs.length ≤ k → k + bs.length ≤ t.length →
    (fillRow bs j k t).getD (j + 3 * i) ' ' = hexHi (bs.getD i 0) := by
  intro bs
  induction bs with
  | nil => intro j k t i hi _ _; simp at hi
  | cons b rest ih =>
    intro j k t i hi hjk hkt
    simp only [List.length_cons] at hi hjk hkt
    simp only [fillRow]
    cases i with
    | zero =>
      have hframe : ∀ i2, i2 < rest.length →
          j + 3 * 0 ≠ (j + 3) + 3 * i2 ∧ j + 3 * 0 ≠ (j + 3) + 3 * i2 + 1 ∧
            j + 3 * 0 ≠ (k + 1) + i2 := by
        intro i2 hi2
        refine ⟨by omega, by omega, by omega⟩
      rw [fillRow_frame rest (j + 3) (k + 1) _ _ hframe]
      simp only [List.getD_eq_getElem?_getD]
      rw [List.getElem?_set_ne (by omega : k ≠ j + 3 * 0),
        List.getElem?_set_ne (by omega : j + 1 ≠ j + 3 * 0),
        show j + 3 * 0 = j by omega,
        List.getElem?_set_self (by simpa using (by omega : j < t.length))]
      simp
    | succ i2 =>
      rw [show j + 3 * (i2 + 1) = (j + 3) + 3 * i2 by omega,
        ih (j + 3) (k + 1) _ i2 (by omega) (by omega) (by simp; omega)]
      rfl

theorem fillRow_hexLo : ∀ (bs : List Nat) (j k : Nat) (t : List Char) (i : Nat),
    i < bs.length → j + 3 * bs.length ≤ k → k + bs.length ≤ t.length →
    (fillRow bs j k t).getD (j + 3 * i + 1) ' ' = hexLo (bs.getD i 0) := by
  intro bs
  induction bs with
  | nil => intro j k t i hi _ _; simp at hi
  | cons b rest ih =>
    intro j k t i hi hjk hkt
    simp only [List.length_cons] at hi hjk hkt
    simp only [fillRow]
    cases i with
    | zero =>
      have hframe : ∀ i2, i2 < rest.length →
          j + 3 * 0 + 1 ≠ (j + 3) + 3 * i2 ∧ j + 3 * 0 + 1 ≠ (j + 3) + 3 * i2 + 1 ∧
            j + 3 * 0 + 1 ≠ (k + 1) + i2 := by
        intro i2 hi2
        refine ⟨by omega, by omega, by omega⟩
      rw [fillRow_frame rest (j + 3) (k + 1) _ _ hframe]
      simp only [List.getD_eq_getElem?_getD]
      rw [List.getElem?_set_ne (by omega : k ≠ j + 3 * 0 + 1),
        show j + 3 * 0 + 1 = j + 1 by omega,
        List.getElem?_set_self (by simpa using (by omega : j + 1 < t.length))]
      simp
    | succ i2 =>
      rw [show j + 3 * (i2 + 1) + 1 = (j + 3) + 3 * i2 + 1 by omega,
        ih (j + 3) (k + 1) _ i2 (by omega) (by omega) (by simp; omega)]
      rfl

theorem fillRow_gutterPos : ∀ (bs : List Nat) (j k : Nat) (t : List Char) (i : Nat),
    i < bs.length → j + 3 * bs.length ≤ k → k + bs.length ≤ t.length →
    (fillRow bs j k t).getD (k + i) ' ' = gutterChar (bs.getD i 0) := by
  intro bs
  induction bs with
  | nil => intro j k t i hi _ _; simp at hi
  | cons b rest ih =>
    intro j k t i hi hjk hkt
    simp only [List.length_cons] at hi hjk hkt
    simp only [fillRow]
    cases i with
    | zero =>
      have hframe : ∀ i2, i2 < rest.length →
          k + 0 ≠ (j + 3) + 3 * i2 ∧ k + 0 ≠ (j + 3) + 3 * i2 + 1 ∧
            k + 0 ≠ (k + 1) + i2 := by
        intro i2 hi2
        refine ⟨by omega, by omega, by omega⟩
      rw [fillRow_frame rest (j + 3) (k + 1) _ _ hframe]
      simp only [List.getD_eq_getElem?_getD]
      rw [show k + 0 = k by omega,
        List.getElem?_set_self (by simpa using (by omega : k < t.length))]
      simp
    | succ i2 =>
      rw [show k + (i2 + 1) = (k + 1) + i2 by omega,
        ih (j + 3) (k + 1) _ i2 (by omega) (by omega) (by simp; omega)]
      rfl

theorem replicate_getD (n p : Nat) (h : p < n) :
    (List.replicate n ' ').getD p ' ' = ' ' := by
  rw [List.getD_eq_getElem?_getD, List.getElem?_replicate_of_lt h]
  rfl

theorem dumpLoop_length : ∀ (fuel : Nat) (mem : List Nat) (address : Nat),
    mem.length ≤ fuel →
    (dumpLoop fuel mem address).length = (mem.length + 15) / 16 := by
  intro fuel
  induction fuel with
  | zero =>
    intro mem address h
    have hnil : mem = [] := List.eq_nil_of_length_eq_zero (by omega)
    subst hnil
    rfl
  | succ f ih =>
    intro mem address h
    cases mem with
    | nil => rfl
    | cons b rest =>
      simp only [dumpLoop, List.length_cons]
      rw [ih ((b :: rest).drop 16) _ (by simp at h ⊢; omega)]
      simp only [List.length_drop, List.length_cons]
      omega

theorem dumpLoop_getD : ∀ (fuel : Nat) (mem : List Nat) (address r : Nat),
    mem.length ≤ fuel → r < (dumpLoop fuel mem address).length →
    (dumpLoop fuel mem address).getD r (0, []) =
      (address + 16 * r, buildRow ((mem.drop (16 * r)).take 16)) := by
  intro fuel
  induction fuel with
  | zero =>
    intro mem address r h hr
    have hnil : mem = [] := List.eq_nil_of_length_eq_zero (by omega)
    subst hnil
    simp [dumpLoop] at hr
  | succ f ih =>
    intro mem address r h hr
    cases mem with
    | nil => simp [dumpLoop] at hr
    | cons b rest =>
      simp only [dumpLoop] at hr ⊢
      cases r with
      | zero => simp
      | succ r2 =>
        simp only [List.getD_cons_succ]
        rw [ih ((b :: rest).drop 16) (address + 16) r2 (by simp at h ⊢; omega)
          (by simpa using hr)]
        rw [List.drop_drop,
          show 16 + 16 * r2 = 16 * (r2 + 1) by omega,
          show address + 16 + 16 * r2 = address + 16 * (r2 + 1) by omega]


/-! ## Operation sequencing lemmas -/

theorem loadFile_length (opens : Bool) (fileBytes fb : List Nat) (valueBytes vb : Nat)
    (h : loadFile opens fileBytes valueBytes = some (fb, vb)) : fb.length = vb := by
  unfold loadFile at h
  by_cases h1 : opens = true
  · rw [if_pos h1] at h
    by_cases h2 : fileBytes.length = 0
    · rw [if_pos h2] at h
      simp at h
    · rw [if_neg h2] at h
      replace h : (if (if valueBytes = 0 then fileBytes.length else valueBytes) ≤
            fileBytes.length then
          some (fileBytes.take (if valueBytes = 0 then fileBytes.length else valueBytes),
            if valueBytes = 0 then fileBytes.length else valueBytes)
        else none) = some (fb, vb) := h
      by_cases h3 : (if valueBytes = 0 then fileBytes.length else valueBytes) ≤
          fileBytes.length
      · rw [if_pos h3] at h
        simp only [Option.some.injEq, Prod.mk.injEq] at h
        obtain ⟨hfb, hvb⟩ := h
        rw [← hfb, ← hvb, List.length_take]
        omega
      · rw [if_neg h3] at h
        simp at h
  · rw [if_neg h1] at h
    simp at h

theorem cpuStage_not_cpu (flags : Flags) (env : Env) (s : St) (h : flags.cpu = false) :
    cpuStage flags env s = s := by
  unfold cpuStage
  rw [h]
  simp

theorem cpuStage_failure (flags : Flags) (env : Env) (s : St) (h : flags.cpu = true)
    (hr : env.cpuReply.count = 0) :
    cpuStage flags env s = { s with success := false } := by
  unfold cpuStage
  rw [h, hr]
  simp

theorem fileStage_not_success (flags : Flags) (env : Env) (s : St)
    (h : s.success = false) : fileStage flags env s = s := by
  unfold fileStage
  rw [h]
  simp

theorem sendStage_not_success (flags : Flags) (start : Nat) (s : St)
    (h : s.success = false) : sendStage flags start s = s := by
  unfold sendStage
  rw [h]
  simp

theorem downloadStage_not_success (flags : Flags) (env : Env) (start : Nat) (s : St)
    (h : s.success = false) : downloadStage flags env start s = s := by
  unfold downloadStage
  rw [h]
  simp

theorem verifyStage_not_success (flags : Flags) (s : St) (h : s.success = false) :
    verifyStage flags s = s := by
  unfold verifyStage
  rw [h]
  simp

theorem receiveStage_not_success (flags : Flags) (env : Env) (s : St)
    (h : s.success = false) : receiveStage flags env s = s := by
  unfold receiveStage
  rw [h]
  simp

theorem dumpStage_nil (flags : Flags) (start : Nat) (s : St) (h : s.memory = []) :
    dumpStage flags start s = s := by
  unfold dumpStage
  rw [h]
  simp

theorem dumpStage_memory (flags : Flags) (start : Nat) (s : St) :
    (dumpStage flags start s).memory = s.memory := by
  unfold dumpStage
  split <;> rfl

theorem dumpStage_run (flags : Flags) (start : Nat) (s : St) (hd : flags.dump = true)
    (hm : s.memory ≠ []) :
    (dumpStage flags start s).dumpOut = some (dumpRows s.memory start) := by
  have hcond : (flags.dump && decide (s.memory.length ≠ 0)) = true := by
    simp [hd, List.length_eq_zero]
    exact hm
  unfold dumpStage
  rw [if_pos hcond]

/-- A failed CPU query clears Success before any other operation, and every
later stage except dump is gated on Success, so nothing else runs. -/
theorem mainRun_cpu_failure (flags : Flags) (env : Env) (valueBytes start : Nat)
    (hcpu : flags.cpu = true) (hr : env.cpuReply.count = 0) :
    mainRun flags env valueBytes start = { initSt valueBytes with success := false } := by
  unfold mainRun
  rw [cpuStage_failure flags env _ hcpu hr,
    fileStage_not_success _ _ _ rfl,
    sendStage_not_success _ _ _ rfl,
    downloadStage_not_success _ _ _ _ rfl,
    verifyStage_not_success _ _ rfl,
    receiveStage_not_success _ _ _ rfl,
    dumpStage_nil _ _ _ rfl]

/-- The dump stage consults only the dump flag and the downloaded byte count,
never the Success flag. -/
theorem mainRun_dumpOut (flags : Flags) (env : Env) (valueBytes start : Nat)
    (hd : flags.dump = true) (hm : (mainRun flags env valueBytes start).memory ≠ []) :
    (mainRun flags env valueBytes start).dumpOut =
      some (dumpRows (mainRun flags env valueBytes start).memory start) := by
  unfold mainRun at hm ⊢
  rw [dumpStage_memory] at hm
  rw [dumpStage_run _ _ _ hd hm, dumpStage_memory]

theorem fileStage_success_of (flags : Flags) (env : Env) (s : St)
    (h : (fileStage flags env s).success = true) : s.success = true := by
  by_cases hgate : (s.success && (flags.send || flags.verify)) = true
  · exact (Bool.and_eq_true _ _ |>.mp hgate).1
  · have hfs : fileStage flags env s = s := by
      unfold fileStage
      rw [if_neg hgate]
    rw [hfs] at h
    exact h

theorem fileStage_len (flags : Flags) (env : Env) (s : St)
    (hs : (fileStage flags env s).success = true)
    (hv : (flags.send || flags.verify) = true) :
    (fileStage flags env s).fileBuf.length = (fileStage flags env s).vb := by
  by_cases hgate : (s.success && (flags.send || flags.verify)) = true
  · by_cases hname : env.fileNamed = true
    · cases heq : loadFile env.fileOpens env.fileBytes s.vb with
      | none =>
        have hfs : fileStage flags env s = { s with success := false } := by
          unfold fileStage
          rw [if_pos hgate, if_pos hname, heq]
        rw [hfs] at hs
        simp at hs
      | some fb =>
        have hfs : fileStage flags env s =
            { s with fileLoaded := true, fileBuf := fb.1, vb := fb.2 } := by
          unfold fileStage
          rw [if_pos hgate, if_pos hname, heq]
        rw [hfs]
        exact loadFile_length env.fileOpens env.fileBytes fb.1 s.vb fb.2 (by rw [heq])
    · have hfs : fileStage flags env s = { s with success := false } := by
        unfold fileStage
        rw [if_pos hgate, if_neg hname]
      rw [hfs] at hs
      simp at hs
  · have hfs : fileStage flags env s = s := by
      unfold fileStage
      rw [if_neg hgate]
    rw [hfs] at hs
    simp [hs, hv] at hgate

theorem sendStage_fields (flags : Flags) (start : Nat) (s : St) :
    (sendStage flags start s).success = s.success ∧
    (sendStage flags start s).fileBuf = s.fileBuf ∧
    (sendStage flags start s).vb = s.vb ∧
    (sendStage flags start s).memory = s.memory ∧
    (sendStage flags start s).verifyRan = s.verifyRan := by
  unfold sendStage
  split <;> exact ⟨rfl, rfl, rfl, rfl, rfl⟩

theorem downloadStage_fields (flags : Flags) (env : Env) (start : Nat) (s : St) :
    (downloadStage flags env start s).fileBuf = s.fileBuf ∧
    (downloadStage flags env start s).vb = s.vb ∧
    (downloadStage flags env start s).verifyRan = s.verifyRan := by
  unfold downloadStage
  split
  · split
    · split <;> exact ⟨rfl, rfl, rfl⟩
    · exact ⟨rfl, rfl, rfl⟩
  · exact ⟨rfl, rfl, rfl⟩

theorem downloadStage_success_of (flags : Flags) (env : Env) (start : Nat) (s : St)
    (h : (downloadStage flags env start s).success = true) : s.success = true := by
  by_cases hgate : (s.success && (flags.verify || flags.receive || flags.dump)) = true
  · exact (Bool.and_eq_true _ _ |>.mp hgate).1
  · have hds : downloadStage flags env start s = s := by
      unfold downloadStage
      rw [if_neg hgate]
    rw [hds] at h
    exact h

theorem downloadStage_len (flags : Flags) (env : Env) (start : Nat) (s : St)
    (hs : (downloadStage flags env start s).success = true)
    (hv : (flags.verify || flags.receive || flags.dump) = true) :
    (downloadStage flags env start s).memory.length =
      (downloadStage flags env start s).vb := by
  by_cases hgate : (s.success && (flags.verify || flags.receive || flags.dump)) = true
  · by_cases hvb : s.vb ≠ 0
    · cases heq : loadMemory env.respond s.vb s.vb start with
      | ok bs =>
        have hds : downloadStage flags env start s =
            { s with downloadRan := true, memory := bs } := by
          unfold downloadStage
          rw [if_pos hgate, if_pos hvb, heq]
        rw [hds]
        exact loadMemory_ok_length env.respond s.vb s.vb start bs heq
      | unresponsive bs =>
        have hds : downloadStage flags env start s =
            { s with
                downloadRan := true
                memory := resultBytes (DownloadResult.unresponsive bs)
                success := false } := by
          unfold downloadStage
          rw [if_pos hgate, if_pos hvb, heq]
        rw [hds] at hs
        simp at hs
      | mismatch bs =>
        have hds : downloadStage flags env start s =
            { s with
                downloadRan := true
                memory := resultBytes (DownloadResult.mismatch bs)
                success := false } := by
          unfold downloadStage
          rw [if_pos hgate, if_pos hvb, heq]
        rw [hds] at hs
        simp at hs
      | fuelOut bs =>
        have hds : downloadStage flags env start s =
            { s with
                downloadRan := true
                memory := resultBytes (DownloadResult.fuelOut bs)
                success := false } := by
          unfold downloadStage
          rw [if_pos hgate, if_pos hvb, heq]
        rw [hds] at hs
        simp at hs
    · have hds : downloadStage flags env start s = { s with success := false } := by
        unfold downloadStage
        rw [if_pos hgate, if_neg hvb]
      rw [hds] at hs
      simp at hs
  · have hds : downloadStage flags env start s = s := by
      unfold downloadStage
      rw [if_neg hgate]
    rw [hds] at hs
    simp [hs, hv] at hgate

theorem verifyStage_fields (flags : Flags) (s : St) :
    (verifyStage flags s).fileBuf = s.fileBuf ∧
    (verifyStage flags s).vb = s.vb ∧
    (verifyStage flags s).memory = s.memory := by
  unfold verifyStage
  split
  · split
    · split <;> exact ⟨rfl, rfl, rfl⟩
    · exact ⟨rfl, rfl, rfl⟩
  · exact ⟨rfl, rfl, rfl⟩

theorem verifyStage_ran (flags : Flags) (s : St) (hs0 : s.verifyRan = false)
    (h : (verifyStage flags s).verifyRan = true) :
    s.success = true ∧ flags.verify = true := by
  by_cases hgate : (s.success && flags.verify) = true
  · exact Bool.and_eq_true _ _ |>.mp hgate
  · have hvs : verifyStage flags s = s := by
      unfold verifyStage
      rw [if_neg hgate]
    rw [hvs, hs0] at h
    simp at h

theorem receiveStage_fields (flags : Flags) (env : Env) (s : St) :
    (receiveStage flags env s).fileBuf = s.fileBuf ∧
    (receiveStage flags env s).vb = s.vb ∧
    (receiveStage flags env s).memory = s.memory ∧
    (receiveStage flags env s).verifyRan = s.verifyRan := by
  unfold receiveStage
  split
  · split <;> exact ⟨rfl, rfl, rfl, rfl⟩
  · exact ⟨rfl, rfl, rfl, rfl⟩

theorem dumpStage_fields (flags : Flags) (start : Nat) (s : St) :
    (dumpStage flags start s).fileBuf = s.fileBuf ∧
    (dumpStage flags start s).vb = s.vb ∧
    (dumpStage flags start s).memory = s.memory ∧
    (dumpStage flags start s).verifyRan = s.verifyRan := by
  unfold dumpStage
  split <;> exact ⟨rfl, rfl, rfl, rfl⟩


theorem cpuStage_fields (flags : Flags) (env : Env) (s : St) :
    (cpuStage flags env s).fileBuf = s.fileBuf ∧
    (cpuStage flags env s).vb = s.vb ∧
    (cpuStage flags env s).memory = s.memory ∧
    (cpuStage flags env s).verifyRan = s.verifyRan := by
  unfold cpuStage
  split
  · split <;> exact ⟨rfl, rfl, rfl, rfl⟩
  · exact ⟨rfl, rfl, rfl, rfl⟩

theorem fileStage_verifyRan (flags : Flags) (env : Env) (s : St) :
    (fileStage flags env s).verifyRan = s.verifyRan := by
  unfold fileStage
  split
  · split
    · split <;> rfl
    · rfl
  · rfl

/-- Whenever the verify comparison actually runs, both compared buffers hold
exactly ValueBytes bytes: the file loader and the download guarantee it, and
any earlier failure skips the comparison through the Success gate. -/
theorem mainRun_verify_lengths (flags : Flags) (env : Env) (valueBytes start : Nat)
    (h : (mainRun flags env valueBytes start).verifyRan = true) :
    (mainRun flags env valueBytes start).fileBuf.length =
      (mainRun flags env valueBytes start).vb ∧
    (mainRun flags env valueBytes start).memory.length =
      (mainRun flags env valueBytes start).vb := by
  unfold mainRun at h ⊢
  rw [(dumpStage_fields flags start _).2.2.2, (receiveStage_fields flags env _).2.2.2] at h
  have hvr3 : (downloadStage flags env start (sendStage flags start
      (fileStage flags env (cpuStage flags env (initSt valueBytes))))).verifyRan = false := by
    rw [(downloadStage_fields flags env start _).2.2, (sendStage_fields flags start _).2.2.2.2,
      fileStage_verifyRan, (cpuStage_fields flags env _).2.2.2]
    rfl
  obtain ⟨hsucc3, hfv⟩ := verifyStage_ran flags _ hvr3 h
  have hs2succ := downloadStage_success_of flags env start _ hsucc3
  have hs1succ : (fileStage flags env (cpuStage flags env (initSt valueBytes))).success =
      true := by
    rw [← (sendStage_fields flags start _).1]
    exact hs2succ
  have hmem3 := downloadStage_len flags env start _ hsucc3 (by simp [hfv])
  have hfile1 := fileStage_len flags env _ hs1succ (by simp [hfv])
  constructor
  · rw [(dumpStage_fields flags start _).1, (receiveStage_fields flags env _).1,
      (verifyStage_fields flags _).1, (downloadStage_fields flags env start _).1,
      (sendStage_fields flags start _).2.1,
      (dumpStage_fields flags start _).2.1, (receiveStage_fields flags env _).2.1,
      (verifyStage_fields flags _).2.1, (downloadStage_fields flags env start _).2.1,
      (sendStage_fields flags start _).2.2.1]
    exact hfile1
  · rw [(dumpStage_fields flags start _).2.2.1, (receiveStage_fields flags env _).2.2.1,
      (verifyStage_fields flags _).2.2,
      (dumpStage_fields flags start _).2.1, (receiveStage_fields flags env _).2.1,
      (verifyStage_fields flags _).2.1]
    exact hmem3

/-! ## Claim theorems -/

/-- C1: upload followed by download over the same range against a simulated
target that stores written register values and returns them on reads yields
exactly the uploaded byte sequence; the little-endian packing of the send
loop and the little-endian unpacking of the download loop are mutually
inverse for chunk widths 4 and 1. -/
theorem upload_download_roundtrip (bytes : List Nat) (start : Nat)
    (h256 : ∀ b ∈ bytes, b < 256) :
    loadMemory (targetOf (upload bytes start)) bytes.length bytes.length start =
      DownloadResult.ok bytes ∧
    (∀ b0 b1 b2 b3, b0 < 256 → b1 < 256 → b2 < 256 → b3 < 256 →
      unpackBytes (packValue [b0, b1, b2, b3] 0 4) 4 = [b0, b1, b2, b3]) ∧
    (∀ b, b < 256 → unpackBytes (packValue [b] 0 1) 1 = [b]) := by
  refine ⟨upload_loadMemory_ok bytes start h256, ?_, ?_⟩
  · intro b0 b1 b2 b3 h0 h1 h2 h3
    have hmem : ∀ b ∈ [b0, b1, b2, b3], b < 256 := by
      intro b hb
      simp at hb
      rcases hb with h | h | h | h <;> omega
    have := take_append_unpack [b0, b1, b2, b3] hmem 4 0 (by simp)
    rw [packValue_eq [b0, b1, b2, b3] hmem 0 4]
    simpa using this
  · intro b hb
    have hmem : ∀ x ∈ [b], x < 256 := by
      intro x hx
      simp at hx
      omega
    have := take_append_unpack [b] hmem 1 0 (by simp)
    rw [packValue_eq [b] hmem 0 1]
    simpa using this

/-- C1 witness: a six-byte transfer, one 4-byte chunk followed by two 1-byte
chunks, round-trips over the simulated target. -/
theorem upload_download_roundtrip_witness :
    loadMemory (targetOf (upload [17, 34, 51, 68, 85, 102] 3145728))
      (List.length [17, 34, 51, 68, 85, 102]) (List.length [17, 34, 51, 68, 85, 102])
      3145728 = DownloadResult.ok [17, 34, 51, 68, 85, 102] :=
  (upload_download_roundtrip [17, 34, 51, 68, 85, 102] 3145728 (by decide)).1

/-- C2: the chunk width is 4 exactly while at least 4 bytes remain and 1 for
a remainder of 0 to 3 bytes; the invariant holds initially and is preserved
by every responsive iteration, which advances the accumulated length by
exactly the chunk width; the downloaded image never exceeds the requested
count, and the upload covers exactly the file size. -/
theorem chunk_width_invariant (count length chunk : Nat)
    (h : ChunkInv count length chunk) (hlt : length < count) :
    (ChunkInv count (length + chunk) (nextChunk count (length + chunk) chunk) ∧
      length + chunk ≤ count) ∧
    (∀ c, ChunkInv c 0 (initChunk c)) ∧
    (∀ respond cnt st, (resultBytes (loadMemory respond cnt cnt st)).length ≤ cnt) ∧
    (∀ (bytes : List Nat) (st : Nat), widthSum (upload bytes st) = bytes.length) ∧
    (∀ (respond : Nat → Nat → Reply) (cnt address len2 ch2 : Nat) (buf : List Nat)
        (fuel : Nat), len2 < cnt → (respond address ch2).count ≠ 0 →
      loadLoop respond cnt address len2 ch2 buf (fuel + 1) =
        loadLoop respond cnt (address + ch2) (len2 + ch2)
          (nextChunk cnt (len2 + ch2) ch2)
          (unpackLoop (respond address ch2).value ch2 buf) fuel) := by
  refine ⟨chunkInv_next h hlt, chunkInv_init, loadMemory_length_le, upload_widthSum, ?_⟩
  intro respond cnt address len2 ch2 buf fuel hlt2 hr
  exact loadLoop_step respond cnt address len2 ch2 buf fuel hlt2 hr

/-- C2 witness: after the first 4-byte chunk of a 6-byte transfer the
invariant still holds and the length stays within the requested count. -/
theorem chunk_width_invariant_witness :
    ChunkInv 6 (0 + 4) (nextChunk 6 (0 + 4) 4) ∧ 0 + 4 ≤ 6 :=
  (chunk_width_invariant 6 0 4 (by unfold ChunkInv; omega) (by omega)).1

/-- C3: a zero-byte capture during a required exchange makes the download
fail with the unresponsive error at once; success implies the accumulated
length equals the requested count; a completed loop with a differing length
yields the distinct mismatch error; the loop never exhausts its count-bounded
fuel, and a never-responding target produces the unresponsive failure
immediately. -/
theorem download_error_handling (respond : Nat → Nat → Reply) (count start : Nat) :
    (∀ address length chunk buf fuel, length < count → (respond address chunk).count = 0 →
      loadLoop respond count address length chunk buf (fuel + 1) =
        DownloadResult.unresponsive buf) ∧
    (∀ bs, loadMemory respond count count start = DownloadResult.ok bs →
      bs.length = count) ∧
    (∀ address length chunk buf fuel, ¬ length < count → buf.length ≠ count →
      loadLoop respond count address length chunk buf fuel =
        DownloadResult.mismatch buf) ∧
    isFuelOut (loadMemory respond count count start) = false ∧
    (0 < count → (∀ a c, (respond a c).count = 0) →
      loadMemory respond count count start = DownloadResult.unresponsive []) := by
  refine ⟨?_, ?_, ?_, loadMemory_no_fuelOut respond count start, ?_⟩
  · intro address length chunk buf fuel hlt hr
    exact loadLoop_zero_reply respond count address length chunk buf fuel hlt hr
  · intro bs hok
    exact loadMemory_ok_length respond count count start bs hok
  · intro address length chunk buf fuel hge hb
    rw [loadLoop_exit _ _ _ _ _ _ _ hge, if_neg hb]
  · intro hc hall
    unfold loadMemory
    exact loadLoop_zero_reply respond count start 0 (initChunk count) [] count hc (hall _ _)

/-- C3 witness: a target that never responds makes a 4-byte download fail
with the unresponsive error, with nothing accumulated. -/
theorem download_error_handling_witness :
    loadMemory (fun _ _ => ⟨0, 0⟩) 4 4 0 = DownloadResult.unresponsive [] :=
  (download_error_handling (fun _ _ => ⟨0, 0⟩) 4 0).2.2.2.2 (by omega) (fun _ _ => rfl)

/-- C4 counterexample: the verify loop has no size precondition and no
size-mismatch failure; it scans exactly ValueBytes offsets.  With a 1-byte
file image, a 2-byte memory image and requested count 1, it reports plain
success even though the buffers are not byte-identical or of equal length,
instead of a distinct SizeMismatch failure. -/
theorem verify_no_size_check_counterexample :
    verifyLoop [1] [1, 2] 1 = VerifyResult.ok ∧ ([1] : List Nat) ≠ [1, 2] := by
  exact ⟨by decide, by decide⟩

/-- C4 amended: over buffers that both hold exactly the requested count of
bytes, the only case the program ever reaches, verify succeeds exactly when
the buffers are byte-identical; a mismatch report names the lowest differing
offset and no offset below it differs; and whenever the verify comparison
runs in the main sequence, both buffers hold exactly ValueBytes bytes, an
unequal-length pair never reaching it because the earlier failure clears the
Success gate. -/
theorem verify_first_mismatch (f m : List Nat) (n : Nat) (hf : f.length = n)
    (hm : m.length = n) :
    (verifyLoop f m n = VerifyResult.ok ↔ f = m) ∧
    (∀ i, verifyLoop f m n = VerifyResult.mismatchAt i →
      i < n ∧ f.getD i 0 ≠ m.getD i 0 ∧ ∀ j, j < i → f.getD j 0 = m.getD j 0) ∧
    (∀ flags env vb st, (mainRun flags env vb st).verifyRan = true →
      (mainRun flags env vb st).fileBuf.length = (mainRun flags env vb st).vb ∧
      (mainRun flags env vb st).memory.length = (mainRun flags env vb st).vb) := by
  refine ⟨verifyLoop_ok_iff f m n hf hm, ?_, ?_⟩
  · intro i hmis
    obtain ⟨h1, h2, h3, h4⟩ := verifyGo_mismatch f m n 0 i hmis
    exact ⟨by omega, h3, fun j hj => h4 j (by omega) hj⟩
  · intro flags env vb st hran
    exact mainRun_verify_lengths flags env vb st hran

/-- C4 witness: the spec example, file bytes 01 02 03 against memory bytes
01 FF 03, is not reported as success. -/
theorem verify_first_mismatch_witness :
    verifyLoop [1, 2, 3] [1, 255, 3] 3 ≠ VerifyResult.ok := by
  intro heq
  have h := (verify_first_mismatch [1, 2, 3] [1, 255, 3] 3 rfl rfl).1.mp heq
  exact absurd h (by decide)

/-- C5 counterexample: in the burst 00x1A the second 0 is consumed by the
reset from state 1, so no marker is recognised and the decoded value is 0,
not 0x1A as the claim states. -/
theorem scanner_reset_skips_counterexample :
    scanLoop ['0', '0', 'x', '1', 'A'] 0 0 = 0 ∧
    scanLoop ['0', '0', 'x', '1', 'A'] 0 0 ≠ 0x1A := by
  exact ⟨by decide, by decide⟩

/-- C5 amended: the scan is the 3-state matcher in which state 0 awaits a 0
and state 1 advances on an x, but on any other character state 1 falls back
to state 0 with that character consumed, not re-examined; the decoded value
is the hex parse after the first marker the skipping matcher accepts, so
00x1A decodes 0, while 0x1A and 000x1A decode 0x1A. -/
theorem scanner_marker_value :
    (∀ (cs : List Char) (v : Nat),
      scanLoop cs 0 v =
        (match findMarker cs with
         | some rest => (sscanfHexX rest).getD v
         | none => v)) ∧
    findMarker ['0', '0', 'x', '1', 'A'] = none ∧
    scanLoop ['0', 'x', '1', 'A'] 0 0 = 0x1A ∧
    scanLoop ['0', '0', '0', 'x', '1', 'A'] 0 0 = 0x1A := by
  refine ⟨scan_eq_findMarker, by decide, by decide, by decide⟩


/-- C6 counterexample: feeding the carriage return 0x0d to the terminal
cycle forwards the monitor terminator 0x23 to the target, but it also echoes
a byte to the console, since the remap to 0x23 happens before the printable
filter and 0x23 lies inside the echo range; the claim asserts no local echo
occurs. -/
theorem terminal_cr_echo_counterexample :
    (terminalCycle (some 0x0d) [] 0).echoedToConsole = [0x23] ∧
    (terminalCycle (some 0x0d) [] 0).echoedToConsole ≠ [] := by
  exact ⟨by decide, by decide⟩

/-- C6 amended: console byte 0x0d is remapped to the monitor terminator 0x23
before forwarding, the remapped byte is forwarded to the target, and because
the printable-echo filter runs after the remap it locally echoes 0x23; any
other console byte is forwarded unchanged. -/
theorem terminal_cr_remap (targetBytes : List Nat) (key0 : Nat) :
    (terminalCycle (some 0x0d) targetBytes key0).sentToTarget = [0x23] ∧
    (terminalCycle (some 0x0d) targetBytes key0).echoedToConsole = [0x23] ∧
    (∀ b, b ≠ 0x0d → (terminalCycle (some b) targetBytes key0).sentToTarget = [b]) := by
  refine ⟨by norm_num [terminalCycle, remapKey], by norm_num [terminalCycle, remapKey], ?_⟩
  intro b hb
  simp [terminalCycle, remapKey, hb]

/-- C6 witness: a printable byte is forwarded unchanged. -/
theorem terminal_cr_remap_witness :
    (terminalCycle (some 0x41) [] 0).sentToTarget = [0x41] :=
  (terminal_cr_remap [] 0).2.2 0x41 (by omega)

/-- C7 counterexample: a cycle that reads Escape from the console and then
drains one byte from the target does not exit, because the drain loop
clears Key to 0 after every byte; the claim asserts the exit happens regardless
of drained target bytes. -/
theorem terminal_exit_drain_counterexample :
    cycleExits (terminalCycle (some 0x1b) [0x41] 0) = false := by
  decide

/-- C7 amended: starting a cycle with a non-sentinel Key, the loop exits at
the end of the cycle exactly when the console byte read is Escape 0x1b or
Ctrl-C 0x03 and no target bytes were drained in the same cycle; whenever any
target byte is drained the cycle never exits, so target bytes never cause an
exit and they also cancel a console escape read in the same cycle. -/
theorem terminal_exit_condition (consoleByte : Option Nat) (targetBytes : List Nat)
    (key0 : Nat) (h1 : key0 ≠ 0x1b) (h2 : key0 ≠ 0x03) :
    (cycleExits (terminalCycle consoleByte targetBytes key0) = true ↔
      ((consoleByte = some 0x1b ∨ consoleByte = some 0x03) ∧ targetBytes = [])) ∧
    (targetBytes ≠ [] → cycleExits (terminalCycle consoleByte targetBytes key0) = false) := by
  have hkey := terminalCycle_key consoleByte targetBytes key0
  unfold cycleExits
  rw [hkey]
  by_cases ht : targetBytes = []
  · rw [if_pos ht]
    subst ht
    cases consoleByte with
    | none =>
      constructor
      · constructor
        · intro hx
          simp only [Bool.or_eq_true, beq_iff_eq] at hx
          rcases hx with hx | hx
          · exact absurd hx h1
          · exact absurd hx h2
        · intro hx
          rcases hx.1 with hx1 | hx1 <;> simp at hx1
      · intro hne
        exact absurd rfl hne
    | some b =>
      constructor
      · constructor
        · intro hx
          simp only [Bool.or_eq_true, beq_iff_eq] at hx
          unfold remapKey at hx
          by_cases hb : b = 0x0d
          · rw [if_pos hb] at hx
            rcases hx with hx | hx <;> omega
          · rw [if_neg hb] at hx
            refine ⟨?_, rfl⟩
            rcases hx with hx | hx
            · exact Or.inl (by rw [hx])
            · exact Or.inr (by rw [hx])
        · intro hx
          rcases hx.1 with hx1 | hx1 <;> injection hx1 with hb <;> subst hb <;> norm_num [remapKey]
      · intro hne
        exact absurd rfl hne
  · rw [if_neg ht]
    constructor
    · constructor
      · intro hx
        simp at hx
      · intro hx
        exact absurd hx.2 ht
    · intro _
      rfl

/-- C7 witness: Escape with an idle target exits the loop. -/
theorem terminal_exit_condition_witness :
    cycleExits (terminalCycle (some 0x1b) [] 0) = true :=
  (terminal_exit_condition (some 0x1b) [] 0 (by omega) (by omega)).1.mpr
    ⟨Or.inl rfl, rfl⟩

/-- C8 counterexample: a run requesting the CPU query and a dump, with an
unresponsive CPU reply, a nonzero byte count and a responsive target, never
runs the download, while the same run with a responsive CPU reply does: the
failed CPU query does prevent the subsequent download, contrary to the
claim. -/
theorem cpu_failure_blocks_download_counterexample :
    (mainRun ⟨true, false, false, false, true⟩
      ⟨⟨0, 0⟩, true, true, [], fun _ _ => ⟨1, 0⟩, true⟩ 4 0).downloadRan = false ∧
    (mainRun ⟨true, false, false, false, true⟩
      ⟨⟨5, 0⟩, true, true, [], fun _ _ => ⟨1, 0⟩, true⟩ 4 0).downloadRan = true := by
  exact ⟨by decide, by decide⟩

/-- C8 amended: every failure clears the single shared Success flag, and the
file load, send, download, verify and receive phases are all gated on it, so
a failed CPU query suppresses them all, leaving the run in its initial state
except for the cleared flag; only the dump phase ignores Success: it runs
whenever dumping was requested and any memory bytes were downloaded, so a
failed verify, or a failed download that captured some bytes, does not
prevent the dump. -/
theorem failure_gating (flags : Flags) (env : Env) (valueBytes start : Nat) :
    (flags.dump = true → (mainRun flags env valueBytes start).memory ≠ [] →
      (mainRun flags env valueBytes start).dumpOut =
        some (dumpRows (mainRun flags env valueBytes start).memory start)) ∧
    (flags.cpu = true → env.cpuReply.count = 0 →
      mainRun flags env valueBytes start = { initSt valueBytes with success := false }) := by
  constructor
  · intro hd hm
    exact mainRun_dumpOut flags env valueBytes start hd hm
  · intro hcpu hr
    exact mainRun_cpu_failure flags env valueBytes start hcpu hr

/-- C8 witness: with only the CPU query requested and the target silent, the
whole run is the initial state with Success cleared: no file load, no send,
no download, no verify, no receive, no dump. -/
theorem failure_gating_witness :
    mainRun ⟨true, false, false, false, false⟩
      ⟨⟨0, 0⟩, true, true, [], fun _ _ => ⟨1, 0⟩, true⟩ 4 0 =
      { initSt 4 with success := false } :=
  (failure_gating ⟨true, false, false, false, false⟩
    ⟨⟨0, 0⟩, true, true, [], fun _ _ => ⟨1, 0⟩, true⟩ 4 0).2 rfl rfl

/-- C9 counterexample: the dump row has uniform three-column spacing with no
extra space after the 8th byte: dumping the sixteen bytes 00..0f, the 9th
byte (value 0x08) has its high hex digit at row column 24, where the claimed
layout, with its extra blank after the 8th byte, would put a space. -/
theorem hexdump_extra_space_counterexample :
    ((dumpRows (List.range 16) 0).headD (0, [])).2.getD 24 ' ' = '0' ∧
    ((dumpRows (List.range 16) 0).headD (0, [])).2.getD 24 ' ' ≠ ' ' := by
  exact ⟨by decide, by decide⟩

/-- C9 amended: the dump emits one row per 16 bytes with the address label
advancing by 16; within a row the byte at index i puts its two lowercase hex
digits at columns 3i and 3i+1 with a single space between consecutive bytes
and no extra space after the 8th, the ASCII gutter starts at fixed column 49
rendering printable bytes (strictly between 0x1f and 0x7f) as themselves and
all others as a dot, and every unwritten column of the 65-character row stays
blank, so a final partial row fills only its own hex columns; a 17-byte image
yields exactly two rows, the second with a single hex column. -/
theorem hexdump_row_format (memory : List Nat) (start r : Nat)
    (hr : r < (dumpRows memory start).length) :
    (dumpRows memory start).length = (memory.length + 15) / 16 ∧
    (dumpRows memory start).getD r (0, []) =
      (start + 16 * r, buildRow ((memory.drop (16 * r)).take 16)) ∧
    (∀ bs : List Nat, bs.length ≤ 16 →
      (buildRow bs).length = 65 ∧
      (∀ i, i < bs.length →
        (buildRow bs).getD (3 * i) ' ' = hexHi (bs.getD i 0) ∧
        (buildRow bs).getD (3 * i + 1) ' ' = hexLo (bs.getD i 0) ∧
        (buildRow bs).getD (49 + i) ' ' = gutterChar (bs.getD i 0)) ∧
      (∀ p, p < 65 →
        (∀ i, i < bs.length → p ≠ 3 * i ∧ p ≠ 3 * i + 1 ∧ p ≠ 49 + i) →
        (buildRow bs).getD p ' ' = ' ')) ∧
    (∀ b, (0x1f < b ∧ b < 0x7f → gutterChar b = Char.ofNat b) ∧
      (¬ (0x1f < b ∧ b < 0x7f) → gutterChar b = '.')) ∧
    ((dumpRows (List.range 17) 0).length = 2 ∧
      (dumpRows (List.range 17) 0).getD 1 (0, []) = (16, buildRow [16])) := by
  refine ⟨dumpLoop_length memory.length memory start (Nat.le_refl _),
    dumpLoop_getD memory.length memory start r (Nat.le_refl _) hr, ?_, ?_, by decide⟩
  · intro bs hbs
    refine ⟨buildRow_length bs, ?_, ?_⟩
    · intro i hi
      unfold buildRow
      refine ⟨?_, ?_, ?_⟩
      · have := fillRow_hexHi bs 0 49 (List.replicate 65 ' ') i hi (by omega)
          (by simp; omega)
        simpa using this
      · have := fillRow_hexLo bs 0 49 (List.replicate 65 ' ') i hi (by omega)
          (by simp; omega)
        simpa using this
      · exact fillRow_gutterPos bs 0 49 (List.replicate 65 ' ') i hi (by omega)
          (by simp; omega)
    · intro p hp hnw
      unfold buildRow
      rw [fillRow_frame bs 0 49 (List.replicate 65 ' ') p (by simpa using hnw)]
      exact replicate_getD 65 p hp
  · intro b
    constructor
    · intro hb
      unfold gutterChar
      rw [if_pos hb]
    · intro hb
      unfold gutterChar
      rw [if_neg hb]

/-- C9 witness: a 17-byte image dumps as exactly two rows. -/
theorem hexdump_row_format_witness :
    (dumpRows (List.range 17) 0).length = 2 :=
  (hexdump_row_format (List.range 17) 0 0 (by decide)).2.2.2.2.1

/-- C10: one GetResponse call captures at most 30 bytes however many are
pending, so the terminating 0 stays inside the 32-byte buffer; the recorded
responsiveness count is exactly the number of captured bytes; a burst with
no 0x marker decodes to 0; and the bytes beyond the 30-byte window are left
on the stream for later calls rather than lost. -/
theorem getResponse_burst_bound (stream : List Char) :
    (getResponse stream).count ≤ 30 ∧
    (getResponse stream).count = min stream.length 30 ∧
    (containsMarker (stream.take 30) = false → (getResponse stream).value = 0) ∧
    stream.take 30 ++ (getResponse stream).rest = stream := by
  refine ⟨?_, ?_, ?_, ?_⟩
  · simp [getResponse, List.length_take]
  · simp [getResponse, List.length_take]
    omega
  · intro h
    unfold getResponse
    simp only
    split
    · exact no_marker_scan_zero (stream.take 30) h
    · rfl
  · simp [getResponse]

/-- C10 witness: a 31-byte burst of letters is capped at 30 captured bytes
and decodes to 0. -/
theorem getResponse_burst_bound_witness :
    (getResponse (List.replicate 31 'a')).value = 0 ∧
    (getResponse (List.replicate 31 'a')).count = 30 := by
  have h := getResponse_burst_bound (List.replicate 31 'a')
  refine ⟨h.2.2.1 (by decide), ?_⟩
  rw [h.2.1]
  decide

end Sam9
